import Mathlib

set_option maxRecDepth 40000

/-!
# Verification of the ICC profile decoder (`src/icc.py`)

A shallow embedding of the decoder in `src/icc.py`.  Byte streams are
modelled as `List Nat` (one element per byte).  Python's
`struct.unpack(fmt, buf)` raises `struct.error` when `buf` is not exactly
the size demanded by `fmt`; the specification calls that failure
`TruncatedInputError`.  Fallible decoding is therefore modelled with
`Option`, where `none` is the truncation failure.  Python's
`file.read(n)` returns *at most* `n` bytes, silently returning fewer at
end of file; it is modelled by `List.take`, which has the same behaviour.
-/

/-- Big-endian interpretation of a byte list as a natural number,
as `struct.unpack` does for the `>I` / `>Q` formats. -/
def beNat (l : List Nat) : Nat := l.foldl (fun acc b => acc * 256 + b) 0

/-- Big-endian encoding of `n` in exactly `w` bytes (used to build the
input streams that `struct.unpack` consumes). -/
def beBytes : Nat → Nat → List Nat
  | 0, _ => []
  | w + 1, n => beBytes w (n / 256) ++ [n % 256]

/-- `TAG_SIGS`: the static signature-to-name mapping from `src/icc.py`,
in the source's insertion order. -/
def TAG_SIGS : List (String × String) :=
  [("desc", "descriptionTag"),
   ("cprt", "copyrightTag"),
   ("dmnd", "deviceMfgDescTag"),
   ("dmdd", "deviceModelDescTag"),
   ("vcgt", "videoCardGammaTableTag"),
   ("rXYZ", "redPrimaryXYZData"),
   ("gXYZ", "greenPrimaryXYZData"),
   ("bXYZ", "bluePrimaryXYZData"),
   ("rTRC", "redTRCTag"),
   ("gTRC", "greenTRCTag"),
   ("bTRC", "blueTRCTag"),
   ("wtpt", "mediaWhitePointTag")]

/-- `ICCHeader`: the 23 fields unpacked by the format string
`>2I4s3I12s5IQI12sI16sI6s6s3I` in `ICCProfile.unpack`.  `I`/`Q` fields
become `Nat`; `s` fields stay raw byte lists. -/
structure ICCHeader where
  size : Nat
  pref_cmm_type : Nat
  version : List Nat
  profile_class : Nat
  colour_space : Nat
  pcs : Nat
  created_at : List Nat
  acsp : Nat
  primary_plat_sig : Nat
  flags : Nat
  dev_manufacturer : Nat
  dev_model : Nat
  dev_attributes : Nat
  rendering_intent : Nat
  nCIEXYZ : List Nat
  creator_sig : Nat
  id : List Nat
  spectral_pcs : Nat
  spectral_pcs_wl : List Nat
  bispectral_pcs_wl : List Nat
  mcs_sig : Nat
  subclass : Nat
  reserved : Nat
  deriving Repr, DecidableEq

/-- `ICCTag`: one 12-byte tag-directory entry, unpacked by `>4sII`:
a 4-byte raw signature, a big-endian 32-bit offset and size. -/
structure ICCTag where
  signature : List Nat
  offset : Nat
  size : Nat
  deriving Repr, DecidableEq

/-- The decoded profile: the fields `ICCProfile.unpack` assigns on
`self` (header, num_tags, tags, tag_elements). -/
structure ICCProfile where
  header : ICCHeader
  num_tags : Nat
  tags : List ICCTag
  tag_elements : List (List Nat)
  deriving Repr, DecidableEq

/-- `struct.unpack(">2I4s3I12s5IQI12sI16sI6s6s3I", b)`: fails unless `b`
is exactly 128 bytes, then splits it at the fixed field offsets. -/
def unpackHeader (b : List Nat) : Option ICCHeader :=
  if b.length = 128 then
    some
      { size := beNat (b.take 4)
        pref_cmm_type := beNat ((b.drop 4).take 4)
        version := (b.drop 8).take 4
        profile_class := beNat ((b.drop 12).take 4)
        colour_space := beNat ((b.drop 16).take 4)
        pcs := beNat ((b.drop 20).take 4)
        created_at := (b.drop 24).take 12
        acsp := beNat ((b.drop 36).take 4)
        primary_plat_sig := beNat ((b.drop 40).take 4)
        flags := beNat ((b.drop 44).take 4)
        dev_manufacturer := beNat ((b.drop 48).take 4)
        dev_model := beNat ((b.drop 52).take 4)
        dev_attributes := beNat ((b.drop 56).take 8)
        rendering_intent := beNat ((b.drop 64).take 4)
        nCIEXYZ := (b.drop 68).take 12
        creator_sig := beNat ((b.drop 80).take 4)
        id := (b.drop 84).take 16
        spectral_pcs := beNat ((b.drop 100).take 4)
        spectral_pcs_wl := (b.drop 104).take 6
        bispectral_pcs_wl := (b.drop 110).take 6
        mcs_sig := beNat ((b.drop 116).take 4)
        subclass := beNat ((b.drop 120).take 4)
        reserved := beNat ((b.drop 124).take 4) }
  else none

/-- `struct.unpack(">4sII", b)`: fails unless `b` is exactly 12 bytes. -/
def unpackTag (b : List Nat) : Option ICCTag :=
  if b.length = 12 then
    some
      { signature := b.take 4
        offset := beNat ((b.drop 4).take 4)
        size := beNat ((b.drop 8).take 4) }
  else none

/-- The list comprehension
`[ICCTag(*struct.unpack(">4sII", iccf.read(12))) for i in range(num_tags)]`:
read `n` consecutive 12-byte records; returns the tags and the stream
position after them, or `none` when a record is truncated. -/
def readTags : Nat → List Nat → Option (List ICCTag × List Nat)
  | 0, s => some ([], s)
  | n + 1, s =>
    match unpackTag (s.take 12) with
    | none => none
    | some t =>
      match readTags n (s.drop 12) with
      | none => none
      | some (ts, rest) => some (t :: ts, rest)

/-- `[iccf.read(tag.size) for tag in self.tags]`: sequential payload
reads.  `file.read(size)` never fails: at end of file it returns the
bytes that remain (possibly fewer than `size`). -/
def readPayloads : List ICCTag → List Nat → List (List Nat) × List Nat
  | [], s => ([], s)
  | t :: ts, s =>
    (s.take t.size :: (readPayloads ts (s.drop t.size)).1,
     (readPayloads ts (s.drop t.size)).2)

/-- `ICCProfile.unpack`: header (128 bytes), tag count (4 bytes,
big-endian), `num_tags` directory records, then the payloads read
sequentially from the position after the directory. -/
def unpack (s : List Nat) : Option ICCProfile :=
  match unpackHeader (s.take 128) with
  | none => none
  | some header =>
    let s1 := s.drop 128
    if (s1.take 4).length = 4 then
      let num_tags := beNat (s1.take 4)
      match readTags num_tags (s1.drop 4) with
      | none => none
      | some (tags, s3) =>
        some { header := header, num_tags := num_tags, tags := tags,
               tag_elements := (readPayloads tags s3).1 }
    else none

/-- `ICCProfile.get_version_str`: `"{major}.{minor}.{bugfix} sub
{smajor}.{sminor}"` with `major = version[0]`, `minor = version[1] >> 4`,
`bugfix = version[1] & 0xf`, `smajor = version[2]`, `sminor = version[3]`. -/
def get_version_str (h : ICCHeader) : String :=
  toString (h.version.getD 0 0) ++ "." ++
  toString (h.version.getD 1 0 / 16) ++ "." ++
  toString (h.version.getD 1 0 % 16) ++ " sub " ++
  toString (h.version.getD 2 0) ++ "." ++
  toString (h.version.getD 3 0)

/-- The data `ICCProfile.print` emits for the directory line `print(i,
tag)`: the index and the raw tag tuple.  No mapping is consulted, so the
raw 4-byte signature is what is presented, for known and unknown
signatures alike. -/
def printTagLine (i : Nat) (t : ICCTag) : Nat × ICCTag := (i, t)

/-- A header whose numeric fields fit their wire widths (32-bit, with a
64-bit `dev_attributes`) and whose raw byte fields have the lengths the
fixed layout assigns them — the headers representable in 128 bytes. -/
def ICCHeader.Valid (h : ICCHeader) : Prop :=
  h.size < 2 ^ 32 ∧ h.pref_cmm_type < 2 ^ 32 ∧ h.version.length = 4 ∧
  h.profile_class < 2 ^ 32 ∧ h.colour_space < 2 ^ 32 ∧ h.pcs < 2 ^ 32 ∧
  h.created_at.length = 12 ∧ h.acsp < 2 ^ 32 ∧
  h.primary_plat_sig < 2 ^ 32 ∧ h.flags < 2 ^ 32 ∧
  h.dev_manufacturer < 2 ^ 32 ∧ h.dev_model < 2 ^ 32 ∧
  h.dev_attributes < 2 ^ 64 ∧ h.rendering_intent < 2 ^ 32 ∧
  h.nCIEXYZ.length = 12 ∧ h.creator_sig < 2 ^ 32 ∧ h.id.length = 16 ∧
  h.spectral_pcs < 2 ^ 32 ∧ h.spectral_pcs_wl.length = 6 ∧
  h.bispectral_pcs_wl.length = 6 ∧ h.mcs_sig < 2 ^ 32 ∧
  h.subclass < 2 ^ 32 ∧ h.reserved < 2 ^ 32

instance (h : ICCHeader) : Decidable h.Valid := by
  unfold ICCHeader.Valid; infer_instance

/-- A tag entry representable as a 12-byte directory record. -/
def ICCTag.Valid (t : ICCTag) : Prop :=
  t.signature.length = 4 ∧ t.offset < 2 ^ 32 ∧ t.size < 2 ^ 32

instance (t : ICCTag) : Decidable t.Valid := by
  unfold ICCTag.Valid; infer_instance

/-- Encode a header into the 128-byte big-endian layout that
`unpackHeader` consumes. -/
def packHeader (h : ICCHeader) : List Nat :=
  beBytes 4 h.size ++ beBytes 4 h.pref_cmm_type ++ h.version ++
  beBytes 4 h.profile_class ++ beBytes 4 h.colour_space ++
  beBytes 4 h.pcs ++ h.created_at ++ beBytes 4 h.acsp ++
  beBytes 4 h.primary_plat_sig ++ beBytes 4 h.flags ++
  beBytes 4 h.dev_manufacturer ++ beBytes 4 h.dev_model ++
  beBytes 8 h.dev_attributes ++ beBytes 4 h.rendering_intent ++
  h.nCIEXYZ ++ beBytes 4 h.creator_sig ++ h.id ++
  beBytes 4 h.spectral_pcs ++ h.spectral_pcs_wl ++
  h.bispectral_pcs_wl ++ beBytes 4 h.mcs_sig ++
  beBytes 4 h.subclass ++ beBytes 4 h.reserved

/-- Encode one 12-byte tag-directory record. -/
def packTag (t : ICCTag) : List Nat :=
  t.signature ++ beBytes 4 t.offset ++ beBytes 4 t.size

/-- Encode a whole profile: 128-byte header, big-endian 4-byte tag
count, the 12-byte directory records in order, then the payloads
concatenated in directory order. -/
def packProfile (h : ICCHeader) (tags : List ICCTag)
    (payloads : List (List Nat)) : List Nat :=
  packHeader h ++ beBytes 4 tags.length ++ (tags.map packTag).flatten ++
    payloads.flatten

/-- A tag entry with its offset field replaced by the value decoded
from the 4-byte big-endian encoding of `o`. -/
def setOffset (t : ICCTag) (o : Nat) : ICCTag :=
  { signature := t.signature, offset := beNat (beBytes 4 o),
    size := t.size }

/-- In a stream positioned at the start of the tag directory, replace
the offset field (bytes 4–7) of each successive 12-byte record with the
4-byte big-endian encoding of the corresponding number, leaving
signatures, sizes and everything after the directory unchanged. -/
def rewriteOffsets : List Nat → List Nat → List Nat
  | s, [] => s
  | s, o :: os =>
    s.take 4 ++ beBytes 4 o ++ (s.drop 8).take 4 ++
      rewriteOffsets (s.drop 12) os

/-- The input `s` with the offset fields of its tag directory replaced
by `offs`; header, count, signatures, sizes and payload bytes are
untouched. -/
def withOffsets (s : List Nat) (offs : List Nat) : List Nat :=
  s.take 132 ++ rewriteOffsets (s.drop 132) offs

/-- The all-zero header, as decoded from 128 zero bytes. -/
def zeroHeader : ICCHeader :=
  { size := 0, pref_cmm_type := 0, version := [0, 0, 0, 0],
    profile_class := 0, colour_space := 0, pcs := 0,
    created_at := List.replicate 12 0, acsp := 0, primary_plat_sig := 0,
    flags := 0, dev_manufacturer := 0, dev_model := 0,
    dev_attributes := 0, rendering_intent := 0,
    nCIEXYZ := List.replicate 12 0, creator_sig := 0,
    id := List.replicate 16 0, spectral_pcs := 0,
    spectral_pcs_wl := List.replicate 6 0,
    bispectral_pcs_wl := List.replicate 6 0, mcs_sig := 0,
    subclass := 0, reserved := 0 }

/-- A small concrete header (version 2.1.0 sub 0.0) used in examples. -/
def sampleHeader : ICCHeader :=
  { size := 146, pref_cmm_type := 0, version := [2, 16, 0, 0],
    profile_class := 0, colour_space := 0, pcs := 0,
    created_at := List.replicate 12 0, acsp := 0, primary_plat_sig := 0,
    flags := 0, dev_manufacturer := 0, dev_model := 0,
    dev_attributes := 0, rendering_intent := 0,
    nCIEXYZ := List.replicate 12 0, creator_sig := 0,
    id := List.replicate 16 0, spectral_pcs := 0,
    spectral_pcs_wl := List.replicate 6 0,
    bispectral_pcs_wl := List.replicate 6 0, mcs_sig := 0,
    subclass := 0, reserved := 0 }

/-- A concrete tag entry (signature `vcgt`, declared size 2). -/
def sampleTag : ICCTag :=
  { signature := [118, 99, 103, 116], offset := 144, size := 2 }

/-- A concrete input whose single tag declares size 5 while only 2
payload bytes remain after the directory. -/
def c2input : List Nat :=
  List.replicate 128 0 ++ [0, 0, 0, 1] ++
    [118, 99, 103, 116, 0, 0, 0, 144, 0, 0, 0, 5] ++ [9, 8]

/-- A concrete input with one fully-supplied tag of size 2. -/
def w8input : List Nat :=
  List.replicate 128 0 ++ [0, 0, 0, 1] ++
    [100, 101, 115, 99, 0, 0, 0, 144, 0, 0, 0, 2] ++ [7, 8]

/-- The profile decoded from `w8input`. -/
def w8profile : ICCProfile :=
  { header := zeroHeader, num_tags := 1,
    tags := [{ signature := [100, 101, 115, 99], offset := 144, size := 2 }],
    tag_elements := [[7, 8]] }

/-- A 132-byte input: 128 arbitrary non-`acsp` header bytes and a zero
tag count. -/
def w9input : List Nat := List.replicate 128 97 ++ [0, 0, 0, 0]

/-- A minimal decodable input: zero header and zero tag count. -/
def w10input : List Nat := List.replicate 132 0

/-- The profile decoded from `w10input`. -/
def w10profile : ICCProfile :=
  { header := zeroHeader, num_tags := 0, tags := [], tag_elements := [] }

theorem beBytes_length (w n : Nat) : (beBytes w n).length = w := by
  induction w generalizing n with
  | zero => rfl
  | succ w ih => simp [beBytes, ih]

theorem beNat_append (l : List Nat) (b : Nat) :
    beNat (l ++ [b]) = beNat l * 256 + b := by
  simp [beNat, List.foldl_append]

theorem beNat_beBytes (w n : Nat) (h : n < 256 ^ w) :
    beNat (beBytes w n) = n := by
  induction w generalizing n with
  | zero =>
    have : n = 0 := by simpa using h
    simp [this, beBytes, beNat]
  | succ w ih =>
    have hd : n / 256 < 256 ^ w := by
      rw [Nat.div_lt_iff_lt_mul (by norm_num)]
      calc n < 256 ^ (w + 1) := h
        _ = 256 ^ w * 256 := by rw [pow_succ]
    rw [beBytes, beNat_append, ih _ hd]
    omega

theorem unpackTag_isSome_iff (b : List Nat) :
    (unpackTag b).isSome ↔ b.length = 12 := by
  unfold unpackTag
  split <;> simp_all

theorem readTags_isSome_iff (n : Nat) (s : List Nat) :
    (readTags n s).isSome ↔ 12 * n ≤ s.length := by
  induction n generalizing s with
  | zero => simp [readTags]
  | succ n ih =>
    rw [readTags]
    have hlen : (s.take 12).length = min 12 s.length := s.length_take 12
    cases hu : unpackTag (s.take 12) with
    | none =>
      have h12 : ¬(s.take 12).length = 12 := by
        intro hc
        simp [unpackTag, hc] at hu
      simp only [Option.isSome_none, Bool.false_eq_true, false_iff]
      omega
    | some t =>
      have h12 : (s.take 12).length = 12 := by
        refine (unpackTag_isSome_iff _).mp ?_
        rw [hu]
        rfl
      have hdrop : (s.drop 12).length = s.length - 12 := s.length_drop 12
      have hih := ih (s.drop 12)
      cases hr : readTags n (s.drop 12) with
      | none =>
        rw [hr] at hih
        simp only [Option.isSome_none, Bool.false_eq_true, false_iff] at hih ⊢
        omega
      | some p =>
        obtain ⟨ts, rest⟩ := p
        rw [hr] at hih
        simp only [Option.isSome_some, true_iff] at hih
        simp only [Option.isSome_some, true_iff]
        omega

theorem readTags_eq_some (n : Nat) (s : List Nat) (ts : List ICCTag)
    (r : List Nat) (h : readTags n s = some (ts, r)) :
    ts.length = n ∧ r = s.drop (12 * n) := by
  induction n generalizing s ts r with
  | zero =>
    simp [readTags] at h
    simp [h.1, h.2]
  | succ n ih =>
    rw [readTags] at h
    cases hu : unpackTag (s.take 12) with
    | none => rw [hu] at h; exact absurd h (by simp)
    | some t =>
      rw [hu] at h
      cases hr : readTags n (s.drop 12) with
      | none => rw [hr] at h; exact absurd h (by simp)
      | some p =>
        obtain ⟨ts', rest'⟩ := p
        rw [hr] at h
        simp only [Option.some.injEq, Prod.mk.injEq] at h
        obtain ⟨hts, hrest⟩ := h
        obtain ⟨hl, hr'⟩ := ih (s.drop 12) ts' rest' hr
        constructor
        · rw [← hts]; simp [hl]
        · rw [← hrest, hr', List.drop_drop]
          congr 1
          omega

theorem readTags_get (n : Nat) (s : List Nat) (ts : List ICCTag)
    (r : List Nat) (h : readTags n s = some (ts, r)) (i : Nat)
    (hi : i < n) :
    ts[i]? = unpackTag ((s.drop (12 * i)).take 12) := by
  induction n generalizing s ts r i with
  | zero => omega
  | succ n ih =>
    rw [readTags] at h
    cases hu : unpackTag (s.take 12) with
    | none => rw [hu] at h; exact absurd h (by simp)
    | some t =>
      rw [hu] at h
      cases hr : readTags n (s.drop 12) with
      | none => rw [hr] at h; exact absurd h (by simp)
      | some p =>
        obtain ⟨ts', rest'⟩ := p
        rw [hr] at h
        simp only [Option.some.injEq, Prod.mk.injEq] at h
        obtain ⟨hts, _⟩ := h
        cases i with
        | zero => simp [← hts, hu]
        | succ i =>
          rw [← hts]
          have := ih (s.drop 12) ts' rest' hr i (by omega)
          simp only [List.getElem?_cons_succ]
          rw [this, List.drop_drop, Nat.mul_succ, Nat.add_comm 12 (12 * i)]

theorem readPayloads_length (tags : List ICCTag) (s : List Nat) :
    (readPayloads tags s).1.length = tags.length := by
  induction tags generalizing s with
  | nil => rfl
  | cons t ts ih => simp [readPayloads, ih]

theorem readPayloads_get (tags : List ICCTag) (s : List Nat) (i : Nat)
    (t : ICCTag) (h : tags[i]? = some t) :
    (readPayloads tags s).1[i]? =
      some ((s.drop (((tags.take i).map ICCTag.size).sum)).take t.size) := by
  induction tags generalizing s i with
  | nil => simp at h
  | cons t' ts ih =>
    cases i with
    | zero =>
      simp only [List.getElem?_cons_zero, Option.some.injEq] at h
      simp [readPayloads, h]
    | succ i =>
      simp only [List.getElem?_cons_succ] at h
      have := ih (s.drop t'.size) i h
      simp only [readPayloads, List.getElem?_cons_succ]
      rw [this, List.drop_drop]
      have harith :
          t'.size + ((ts.take i).map ICCTag.size).sum =
            (((t' :: ts).take (i + 1)).map ICCTag.size).sum := by
        simp [List.take_succ_cons]
      rw [harith]

theorem readPayloads_sizes_congr (tags₁ tags₂ : List ICCTag)
    (s : List Nat) (h : tags₁.map ICCTag.size = tags₂.map ICCTag.size) :
    (readPayloads tags₁ s).1 = (readPayloads tags₂ s).1 := by
  induction tags₁ generalizing tags₂ s with
  | nil =>
    have : tags₂ = [] := by
      cases tags₂ with
      | nil => rfl
      | cons t ts => simp at h
    simp [this]
  | cons t ts ih =>
    cases tags₂ with
    | nil => simp at h
    | cons t' ts' =>
      simp only [List.map_cons, List.cons.injEq] at h
      simp only [readPayloads, h.1, ih ts' (s.drop t'.size) h.2]

theorem take_congr_of_take_le {s₁ s₂ : List Nat} {L m : Nat}
    (hm : m ≤ L) (h : s₁.take L = s₂.take L) :
    s₁.take m = s₂.take m := by
  have := congrArg (List.take m) h
  rwa [List.take_take, List.take_take, min_eq_left hm] at this

theorem drop_take_congr_of_take {s₁ s₂ : List Nat} {k m L : Nat}
    (hkm : k + m ≤ L) (h : s₁.take L = s₂.take L) :
    (s₁.drop k).take m = (s₂.drop k).take m := by
  have h' : s₁.take (k + m) = s₂.take (k + m) := take_congr_of_take_le hkm h
  have e₁ : (s₁.take (k + m)).drop k = (s₁.drop k).take m := by
    rw [List.drop_take]
    congr 1
    omega
  have e₂ : (s₂.take (k + m)).drop k = (s₂.drop k).take m := by
    rw [List.drop_take]
    congr 1
    omega
  rw [← e₁, ← e₂, h']

theorem readPayloads_take_congr (tags : List ICCTag) (s₁ s₂ : List Nat)
    (h : s₁.take ((tags.map ICCTag.size).sum) =
         s₂.take ((tags.map ICCTag.size).sum)) :
    (readPayloads tags s₁).1 = (readPayloads tags s₂).1 := by
  induction tags generalizing s₁ s₂ with
  | nil => rfl
  | cons t ts ih =>
    simp only [List.map_cons, List.sum_cons] at h
    simp only [readPayloads]
    congr 1
    · exact take_congr_of_take_le (Nat.le_add_right _ _) h
    · exact ih (s₁.drop t.size) (s₂.drop t.size)
        (drop_take_congr_of_take (Nat.le_refl _) h)

theorem readPayloads_total (tags : List ICCTag) (s : List Nat) :
    ((readPayloads tags s).1.map List.length).sum =
      min ((tags.map ICCTag.size).sum) s.length := by
  induction tags generalizing s with
  | nil => simp [readPayloads]
  | cons t ts ih =>
    simp only [readPayloads, List.map_cons, List.sum_cons, ih,
      List.length_take, List.length_drop]
    omega

theorem readPayloads_pack (tags : List ICCTag)
    (payloads : List (List Nat)) (rest : List Nat)
    (h : List.Forall₂ (fun t p => p.length = t.size) tags payloads) :
    (readPayloads tags (payloads.flatten ++ rest)).1 = payloads := by
  induction h generalizing rest with
  | nil => simp [readPayloads]
  | @cons t p ts ps hsz htail ih =>
    simp only [readPayloads, List.flatten_cons, List.append_assoc]
    rw [List.take_left' hsz, List.drop_left' hsz, ih rest]

theorem packTag_length (t : ICCTag) (ht : t.Valid) :
    (packTag t).length = 12 := by
  obtain ⟨hsig, _, _⟩ := ht
  simp [packTag, beBytes_length, hsig]

theorem lt_pow256_4 {n : Nat} (h : n < 2 ^ 32) : n < 256 ^ 4 := by
  calc n < 2 ^ 32 := h
    _ = 256 ^ 4 := by norm_num

theorem lt_pow256_8 {n : Nat} (h : n < 2 ^ 64) : n < 256 ^ 8 := by
  calc n < 2 ^ 64 := h
    _ = 256 ^ 8 := by norm_num

theorem take_exact {l : List Nat} {w : Nat} (h : l.length = w) :
    l.take w = l := by
  rw [← h, List.take_length]

theorem unpackTag_packTag (t : ICCTag) (ht : t.Valid) :
    unpackTag (packTag t) = some t := by
  obtain ⟨hsig, hoff, hsz⟩ := ht
  have hlen : (packTag t).length = 12 := packTag_length t ⟨hsig, hoff, hsz⟩
  have hassoc : packTag t =
      t.signature ++ (beBytes 4 t.offset ++ beBytes 4 t.size) := by
    rw [packTag, List.append_assoc]
  have hd4 : (packTag t).drop 4 = beBytes 4 t.offset ++ beBytes 4 t.size := by
    rw [hassoc]
    exact List.drop_left' hsig
  have hd8 : (packTag t).drop 8 = beBytes 4 t.size := by
    have h44 : ((packTag t).drop 4).drop 4 = (packTag t).drop 8 :=
      List.drop_drop 4 4 _
    rw [← h44, hd4, List.drop_left' (beBytes_length 4 t.offset)]
  have ht4 : (packTag t).take 4 = t.signature := by
    rw [hassoc]
    exact List.take_left' hsig
  rw [unpackTag, if_pos hlen]
  rw [ht4]
  rw [hd4, List.take_left' (beBytes_length 4 t.offset)]
  rw [hd8, take_exact (beBytes_length 4 t.size)]
  rw [beNat_beBytes 4 t.offset (lt_pow256_4 hoff)]
  rw [beNat_beBytes 4 t.size (lt_pow256_4 hsz)]

theorem readTags_pack (tags : List ICCTag) (ht : ∀ t ∈ tags, t.Valid)
    (rest : List Nat) :
    readTags tags.length ((tags.map packTag).flatten ++ rest) =
      some (tags, rest) := by
  induction tags with
  | nil => simp [readTags]
  | cons t ts ih =>
    have htv : t.Valid := ht t (by simp)
    have hlen : (packTag t).length = 12 := packTag_length t htv
    simp only [List.length_cons, List.map_cons, List.flatten_cons,
      List.append_assoc, readTags]
    rw [List.take_left' hlen, unpackTag_packTag t htv,
      List.drop_left' hlen, ih (fun x hx => ht x (by simp [hx]))]

theorem readTags_take_congr (n : Nat) (s₁ s₂ : List Nat)
    (h : s₁.take (12 * n) = s₂.take (12 * n)) :
    (readTags n s₁).map Prod.fst = (readTags n s₂).map Prod.fst := by
  induction n generalizing s₁ s₂ with
  | zero => simp [readTags]
  | succ n ih =>
    have h12 : s₁.take 12 = s₂.take 12 :=
      take_congr_of_take_le (by omega) h
    have hdrop : (s₁.drop 12).take (12 * n) = (s₂.drop 12).take (12 * n) :=
      drop_take_congr_of_take (by omega) h
    have hih := ih (s₁.drop 12) (s₂.drop 12) hdrop
    rw [readTags, readTags, h12]
    cases unpackTag (s₂.take 12) with
    | none => rfl
    | some t =>
      cases hr₁ : readTags n (s₁.drop 12) with
      | none =>
        cases hr₂ : readTags n (s₂.drop 12) with
        | none => rfl
        | some p₂ =>
          rw [hr₁, hr₂] at hih
          simp at hih
      | some p₁ =>
        cases hr₂ : readTags n (s₂.drop 12) with
        | none =>
          rw [hr₁, hr₂] at hih
          simp at hih
        | some p₂ =>
          obtain ⟨ts₁, r₁⟩ := p₁
          obtain ⟨ts₂, r₂⟩ := p₂
          rw [hr₁, hr₂] at hih
          simp at hih
          simp [hih]

theorem drop_chunk {b c r : List Nat} {o w o' : Nat}
    (hb : b.drop o = c ++ r) (hc : c.length = w) (ho : o' = o + w) :
    b.drop o' = r := by
  subst ho
  rw [← List.drop_drop w o b, hb, List.drop_left' hc]

theorem packHeader_length (h : ICCHeader) (hv : h.Valid) :
    (packHeader h).length = 128 := by
  obtain ⟨h1, h2, hver, h4, h5, h6, hcre, h8, h9, h10, h11, h12, h13,
    h14, hxyz, h16, hid, h18, hwl, hbwl, h21, h22, h23⟩ := hv
  simp [packHeader, beBytes_length, hver, hcre, hxyz, hid, hwl, hbwl]

theorem unpackHeader_packHeader (h : ICCHeader) (hv : h.Valid) :
    unpackHeader (packHeader h) = some h := by
  have hlen : (packHeader h).length = 128 := packHeader_length h hv
  obtain ⟨hsz, hcmm, hver, hpc, hcs, hpcs, hcre, hacsp, hpps, hflags,
    hdm, hdmod, hdat, hri, hxyz, hcsig, hid, hspcs, hwl, hbwl, hmcs,
    hsub, hres⟩ := hv
  have B0 : packHeader h =
      beBytes 4 h.size ++ (beBytes 4 h.pref_cmm_type ++ (h.version ++
      (beBytes 4 h.profile_class ++ (beBytes 4 h.colour_space ++
      (beBytes 4 h.pcs ++ (h.created_at ++ (beBytes 4 h.acsp ++
      (beBytes 4 h.primary_plat_sig ++ (beBytes 4 h.flags ++
      (beBytes 4 h.dev_manufacturer ++ (beBytes 4 h.dev_model ++
      (beBytes 8 h.dev_attributes ++ (beBytes 4 h.rendering_intent ++
      (h.nCIEXYZ ++ (beBytes 4 h.creator_sig ++ (h.id ++
      (beBytes 4 h.spectral_pcs ++ (h.spectral_pcs_wl ++
      (h.bispectral_pcs_wl ++ (beBytes 4 h.mcs_sig ++
      (beBytes 4 h.subclass ++
      beBytes 4 h.reserved))))))))))))))))))))) := by
    rw [packHeader]
    simp only [List.append_assoc]
  have A0 := (List.drop_zero (packHeader h)).trans B0
  have A4 := drop_chunk A0 (beBytes_length 4 h.size)
    (show (4 : Nat) = 0 + 4 from rfl)
  have A8 := drop_chunk A4 (beBytes_length 4 h.pref_cmm_type)
    (show (8 : Nat) = 4 + 4 from rfl)
  have A12 := drop_chunk A8 hver (show (12 : Nat) = 8 + 4 from rfl)
  have A16 := drop_chunk A12 (beBytes_length 4 h.profile_class)
    (show (16 : Nat) = 12 + 4 from rfl)
  have A20 := drop_chunk A16 (beBytes_length 4 h.colour_space)
    (show (20 : Nat) = 16 + 4 from rfl)
  have A24 := drop_chunk A20 (beBytes_length 4 h.pcs)
    (show (24 : Nat) = 20 + 4 from rfl)
  have A36 := drop_chunk A24 hcre (show (36 : Nat) = 24 + 12 from rfl)
  have A40 := drop_chunk A36 (beBytes_length 4 h.acsp)
    (show (40 : Nat) = 36 + 4 from rfl)
  have A44 := drop_chunk A40 (beBytes_length 4 h.primary_plat_sig)
    (show (44 : Nat) = 40 + 4 from rfl)
  have A48 := drop_chunk A44 (beBytes_length 4 h.flags)
    (show (48 : Nat) = 44 + 4 from rfl)
  have A52 := drop_chunk A48 (beBytes_length 4 h.dev_manufacturer)
    (show (52 : Nat) = 48 + 4 from rfl)
  have A56 := drop_chunk A52 (beBytes_length 4 h.dev_model)
    (show (56 : Nat) = 52 + 4 from rfl)
  have A64 := drop_chunk A56 (beBytes_length 8 h.dev_attributes)
    (show (64 : Nat) = 56 + 8 from rfl)
  have A68 := drop_chunk A64 (beBytes_length 4 h.rendering_intent)
    (show (68 : Nat) = 64 + 4 from rfl)
  have A80 := drop_chunk A68 hxyz (show (80 : Nat) = 68 + 12 from rfl)
  have A84 := drop_chunk A80 (beBytes_length 4 h.creator_sig)
    (show (84 : Nat) = 80 + 4 from rfl)
  have A100 := drop_chunk A84 hid (show (100 : Nat) = 84 + 16 from rfl)
  have A104 := drop_chunk A100 (beBytes_length 4 h.spectral_pcs)
    (show (104 : Nat) = 100 + 4 from rfl)
  have A110 := drop_chunk A104 hwl (show (110 : Nat) = 104 + 6 from rfl)
  have A116 := drop_chunk A110 hbwl (show (116 : Nat) = 110 + 6 from rfl)
  have A120 := drop_chunk A116 (beBytes_length 4 h.mcs_sig)
    (show (120 : Nat) = 116 + 4 from rfl)
  have A124 := drop_chunk A120 (beBytes_length 4 h.subclass)
    (show (124 : Nat) = 120 + 4 from rfl)
  rw [unpackHeader, if_pos hlen]
  rw [show (packHeader h).take 4 = beBytes 4 h.size by
    rw [B0]; exact List.take_left' (beBytes_length 4 h.size)]
  rw [show ((packHeader h).drop 4).take 4 = beBytes 4 h.pref_cmm_type by
    rw [A4]; exact List.take_left' (beBytes_length 4 h.pref_cmm_type)]
  rw [show ((packHeader h).drop 8).take 4 = h.version by
    rw [A8]; exact List.take_left' hver]
  rw [show ((packHeader h).drop 12).take 4 = beBytes 4 h.profile_class by
    rw [A12]; exact List.take_left' (beBytes_length 4 h.profile_class)]
  rw [show ((packHeader h).drop 16).take 4 = beBytes 4 h.colour_space by
    rw [A16]; exact List.take_left' (beBytes_length 4 h.colour_space)]
  rw [show ((packHeader h).drop 20).take 4 = beBytes 4 h.pcs by
    rw [A20]; exact List.take_left' (beBytes_length 4 h.pcs)]
  rw [show ((packHeader h).drop 24).take 12 = h.created_at by
    rw [A24]; exact List.take_left' hcre]
  rw [show ((packHeader h).drop 36).take 4 = beBytes 4 h.acsp by
    rw [A36]; exact List.take_left' (beBytes_length 4 h.acsp)]
  rw [show ((packHeader h).drop 40).take 4 = beBytes 4 h.primary_plat_sig by
    rw [A40]; exact List.take_left' (beBytes_length 4 h.primary_plat_sig)]
  rw [show ((packHeader h).drop 44).take 4 = beBytes 4 h.flags by
    rw [A44]; exact List.take_left' (beBytes_length 4 h.flags)]
  rw [show ((packHeader h).drop 48).take 4 = beBytes 4 h.dev_manufacturer by
    rw [A48]; exact List.take_left' (beBytes_length 4 h.dev_manufacturer)]
  rw [show ((packHeader h).drop 52).take 4 = beBytes 4 h.dev_model by
    rw [A52]; exact List.take_left' (beBytes_length 4 h.dev_model)]
  rw [show ((packHeader h).drop 56).take 8 = beBytes 8 h.dev_attributes by
    rw [A56]; exact List.take_left' (beBytes_length 8 h.dev_attributes)]
  rw [show ((packHeader h).drop 64).take 4 = beBytes 4 h.rendering_intent by
    rw [A64]; exact List.take_left' (beBytes_length 4 h.rendering_intent)]
  rw [show ((packHeader h).drop 68).take 12 = h.nCIEXYZ by
    rw [A68]; exact List.take_left' hxyz]
  rw [show ((packHeader h).drop 80).take 4 = beBytes 4 h.creator_sig by
    rw [A80]; exact List.take_left' (beBytes_length 4 h.creator_sig)]
  rw [show ((packHeader h).drop 84).take 16 = h.id by
    rw [A84]; exact List.take_left' hid]
  rw [show ((packHeader h).drop 100).take 4 = beBytes 4 h.spectral_pcs by
    rw [A100]; exact List.take_left' (beBytes_length 4 h.spectral_pcs)]
  rw [show ((packHeader h).drop 104).take 6 = h.spectral_pcs_wl by
    rw [A104]; exact List.take_left' hwl]
  rw [show ((packHeader h).drop 110).take 6 = h.bispectral_pcs_wl by
    rw [A110]; exact List.take_left' hbwl]
  rw [show ((packHeader h).drop 116).take 4 = beBytes 4 h.mcs_sig by
    rw [A116]; exact List.take_left' (beBytes_length 4 h.mcs_sig)]
  rw [show ((packHeader h).drop 120).take 4 = beBytes 4 h.subclass by
    rw [A120]; exact List.take_left' (beBytes_length 4 h.subclass)]
  rw [show ((packHeader h).drop 124).take 4 = beBytes 4 h.reserved by
    rw [A124]; exact take_exact (beBytes_length 4 h.reserved)]
  rw [beNat_beBytes 4 h.size (lt_pow256_4 hsz),
    beNat_beBytes 4 h.pref_cmm_type (lt_pow256_4 hcmm),
    beNat_beBytes 4 h.profile_class (lt_pow256_4 hpc),
    beNat_beBytes 4 h.colour_space (lt_pow256_4 hcs),
    beNat_beBytes 4 h.pcs (lt_pow256_4 hpcs),
    beNat_beBytes 4 h.acsp (lt_pow256_4 hacsp),
    beNat_beBytes 4 h.primary_plat_sig (lt_pow256_4 hpps),
    beNat_beBytes 4 h.flags (lt_pow256_4 hflags),
    beNat_beBytes 4 h.dev_manufacturer (lt_pow256_4 hdm),
    beNat_beBytes 4 h.dev_model (lt_pow256_4 hdmod),
    beNat_beBytes 8 h.dev_attributes (lt_pow256_8 hdat),
    beNat_beBytes 4 h.rendering_intent (lt_pow256_4 hri),
    beNat_beBytes 4 h.creator_sig (lt_pow256_4 hcsig),
    beNat_beBytes 4 h.spectral_pcs (lt_pow256_4 hspcs),
    beNat_beBytes 4 h.mcs_sig (lt_pow256_4 hmcs),
    beNat_beBytes 4 h.subclass (lt_pow256_4 hsub),
    beNat_beBytes 4 h.reserved (lt_pow256_4 hres)]

theorem unpack_inv (s : List Nat) (p : ICCProfile) (h : unpack s = some p) :
    unpackHeader (s.take 128) = some p.header ∧
    p.num_tags = beNat ((s.drop 128).take 4) ∧
    readTags p.num_tags (s.drop 132) =
      some (p.tags, s.drop (132 + 12 * p.num_tags)) ∧
    p.tag_elements =
      (readPayloads p.tags (s.drop (132 + 12 * p.num_tags))).1 := by
  unfold unpack at h
  split at h
  · exact absurd h (by simp)
  next hd hH =>
    simp only at h
    split at h
    · split at h
      · exact absurd h (by simp)
      next ts r hr =>
        simp only [Option.some.injEq] at h
        subst h
        have hd132 : (s.drop 128).drop 4 = s.drop 132 := by
          rw [List.drop_drop]
        rw [hd132] at hr
        obtain ⟨hts, hrr⟩ := readTags_eq_some _ _ _ _ hr
        refine ⟨hH, rfl, ?_, ?_⟩
        · rw [hr, hrr, List.drop_drop]
        · rw [hrr, List.drop_drop]
    · exact absurd h (by simp)

theorem unpackHeader_isSome_iff (b : List Nat) :
    (unpackHeader b).isSome ↔ b.length = 128 := by
  unfold unpackHeader
  split <;> simp_all

theorem unpack_isSome_iff (s : List Nat) :
    (unpack s).isSome ↔ 132 + 12 * beNat ((s.drop 128).take 4) ≤ s.length := by
  have hT128 : (s.take 128).length = min 128 s.length := List.length_take _ _
  have hD128 : (s.drop 128).length = s.length - 128 := List.length_drop _ _
  have hT4 : ((s.drop 128).take 4).length = min 4 (s.length - 128) := by
    rw [List.length_take, hD128]
  have hD132 : (s.drop 132).length = s.length - 132 := List.length_drop _ _
  unfold unpack
  split
  next hH =>
    have h128 : ¬(s.take 128).length = 128 := by
      intro hc
      have hs := (unpackHeader_isSome_iff (s.take 128)).mpr hc
      rw [hH] at hs
      simp at hs
    simp only [Option.isSome_none, Bool.false_eq_true, false_iff]
    omega
  next hd hH =>
    have h128 : (s.take 128).length = 128 :=
      (unpackHeader_isSome_iff (s.take 128)).mp (by rw [hH]; rfl)
    simp only
    split
    next h4 =>
      have hd132 : (s.drop 128).drop 4 = s.drop 132 := by
        rw [List.drop_drop]
      rw [hd132]
      have hrt := readTags_isSome_iff (beNat ((s.drop 128).take 4))
        (s.drop 132)
      split
      next hr =>
        rw [hr] at hrt
        simp only [Option.isSome_none, Bool.false_eq_true, false_iff] at hrt ⊢
        omega
      next ts r hr =>
        rw [hr] at hrt
        simp only [Option.isSome_some, true_iff] at hrt ⊢
        omega
    next h4 =>
      simp only [Option.isSome_none, Bool.false_eq_true, false_iff]
      omega

theorem unpack_build (s : List Nat) (hd : ICCHeader) (ts : List ICCTag)
    (r : List Nat) (hH : unpackHeader (s.take 128) = some hd)
    (h4 : ((s.drop 128).take 4).length = 4)
    (hrt : readTags (beNat ((s.drop 128).take 4)) (s.drop 132) =
      some (ts, r)) :
    unpack s = some { header := hd,
                      num_tags := beNat ((s.drop 128).take 4),
                      tags := ts,
                      tag_elements := (readPayloads ts r).1 } := by
  have hd132 : (s.drop 128).drop 4 = s.drop 132 := by
    rw [List.drop_drop]
  unfold unpack
  split
  next hnone =>
    rw [hH] at hnone
    exact absurd hnone (by simp)
  next hd' hH' =>
    rw [hH] at hH'
    cases hH'
    simp only
    rw [if_pos h4]
    split
    next hrnone =>
      rw [hd132, hrt] at hrnone
      exact absurd hrnone (by simp)
    next ts' r' hr' =>
      rw [hd132, hrt] at hr'
      simp only [Option.some.injEq, Prod.mk.injEq] at hr'
      obtain ⟨hts, hr⟩ := hr'
      rw [hts, hr]

/-- Claim C1: decoding the byte stream built from a 128-byte header
encoding, a big-endian 4-byte count, the 12-byte directory records in
order, and the payloads concatenated in directory order reproduces the
original header fields, the original tag entries in order, and the
original payloads index-aligned with their entries. -/
theorem unpack_packProfile (h : ICCHeader) (tags : List ICCTag)
    (payloads : List (List Nat)) (hh : h.Valid)
    (ht : ∀ t ∈ tags, t.Valid) (hn : tags.length < 2 ^ 32)
    (hp : List.Forall₂ (fun t p => p.length = t.size) tags payloads) :
    unpack (packProfile h tags payloads) =
      some { header := h, num_tags := tags.length, tags := tags,
             tag_elements := payloads } := by
  have hhl := packHeader_length h hh
  have hs : packProfile h tags payloads =
      packHeader h ++ (beBytes 4 tags.length ++
        ((tags.map packTag).flatten ++ payloads.flatten)) := by
    rw [packProfile]
    simp only [List.append_assoc]
  have h1 : (packProfile h tags payloads).take 128 = packHeader h := by
    rw [hs]
    exact List.take_left' hhl
  have h2 : (packProfile h tags payloads).drop 128 =
      beBytes 4 tags.length ++
        ((tags.map packTag).flatten ++ payloads.flatten) := by
    rw [hs]
    exact List.drop_left' hhl
  have h3 : ((packProfile h tags payloads).drop 128).take 4 =
      beBytes 4 tags.length := by
    rw [h2]
    exact List.take_left' (beBytes_length 4 tags.length)
  have h4 : ((packProfile h tags payloads).drop 128).drop 4 =
      (tags.map packTag).flatten ++ payloads.flatten := by
    rw [h2]
    exact List.drop_left' (beBytes_length 4 tags.length)
  have hbe : beNat (beBytes 4 tags.length) = tags.length :=
    beNat_beBytes 4 tags.length (lt_pow256_4 hn)
  have hrt := readTags_pack tags ht payloads.flatten
  have hrp : (readPayloads tags payloads.flatten).1 = payloads := by
    have hr0 := readPayloads_pack tags payloads [] hp
    rwa [List.append_nil] at hr0
  have h5 : (packProfile h tags payloads).drop 132 =
      (tags.map packTag).flatten ++ payloads.flatten := by
    have hdd : ((packProfile h tags payloads).drop 128).drop 4 =
        (packProfile h tags payloads).drop 132 := by
      rw [List.drop_drop]
    rw [← hdd, h4]
  have hH : unpackHeader ((packProfile h tags payloads).take 128) =
      some h := by
    rw [h1]
    exact unpackHeader_packHeader h hh
  have hc4 : (((packProfile h tags payloads).drop 128).take 4).length = 4 := by
    rw [h3, beBytes_length]
  have hrt' : readTags (beNat (((packProfile h tags payloads).drop 128).take 4))
      ((packProfile h tags payloads).drop 132) =
      some (tags, payloads.flatten) := by
    rw [h3, hbe, h5]
    exact hrt
  calc unpack (packProfile h tags payloads)
      = some { header := h,
               num_tags := beNat (((packProfile h tags payloads).drop 128).take 4),
               tags := tags,
               tag_elements := (readPayloads tags payloads.flatten).1 } :=
        unpack_build _ h tags payloads.flatten hH hc4 hrt'
    _ = some { header := h, num_tags := tags.length, tags := tags,
               tag_elements := payloads } := by
        rw [h3, hbe, hrp]

/-- Claim C4: on every input of fewer than 128 bytes, `unpack` fails
(the `struct.error` the spec calls `TruncatedInputError`) and returns no
partial result. -/
theorem unpack_short_header (s : List Nat) (h : s.length < 128) :
    unpack s = none := by
  cases hu : unpack s with
  | none => rfl
  | some p =>
    have hs := (unpack_isSome_iff s).mp (by rw [hu]; rfl)
    omega

/-- Witness for C4 at a concrete 127-byte input. -/
theorem unpack_short_header_witness :
    (List.replicate 127 0).length < 128 ∧
    unpack (List.replicate 127 0) = none :=
  ⟨by decide, unpack_short_header (List.replicate 127 0) (by decide)⟩

/-- Claim C5: on every input holding a full header and 4-byte tag count
but fewer than `count * 12` bytes of directory, `unpack` fails. -/
theorem unpack_short_directory (s : List Nat) (h132 : 132 ≤ s.length)
    (hshort : s.length - 132 < 12 * beNat ((s.drop 128).take 4)) :
    unpack s = none := by
  cases hu : unpack s with
  | none => rfl
  | some p =>
    have hs := (unpack_isSome_iff s).mp (by rw [hu]; rfl)
    omega

/-- Witness for C5 at a concrete input declaring one tag but providing
no directory bytes. -/
theorem unpack_short_directory_witness :
    132 ≤ (List.replicate 128 0 ++ [0, 0, 0, 1]).length ∧
    (List.replicate 128 0 ++ [0, 0, 0, 1]).length - 132 <
      12 * beNat (((List.replicate 128 0 ++ [0, 0, 0, 1]).drop 128).take 4) ∧
    unpack (List.replicate 128 0 ++ [0, 0, 0, 1]) = none :=
  ⟨by decide, by decide,
    unpack_short_directory (List.replicate 128 0 ++ [0, 0, 0, 1])
      (by decide) (by decide)⟩

/-- Claim C9: `unpack` validates nothing but availability of bytes: any
input whose header, count and directory fit decodes successfully,
whatever the bytes hold (magic, signatures, checksum included), and in
particular any input that additionally supplies all declared payload
bytes does. -/
theorem unpack_no_content_validation (s : List Nat)
    (hlen : 132 + 12 * beNat ((s.drop 128).take 4) ≤ s.length) :
    (unpack s).isSome = true :=
  (unpack_isSome_iff s).mpr hlen

/-- Witness for C9 at an input whose 128 header bytes are all `97`
(magic not `acsp`). -/
theorem unpack_no_content_validation_witness :
    132 + 12 * beNat ((w9input.drop 128).take 4) ≤ w9input.length ∧
    (unpack w9input).isSome = true :=
  ⟨by decide, unpack_no_content_validation w9input (by decide)⟩

/-- Claim C6: `get_version_str` is a pure function of the four version
bytes, formatting them as `"{b0}.{b1 >> 4}.{b1 & 0xf} sub {b2}.{b3}"`;
for version bytes `(2, 0x10, 0, 0)` it yields `"2.1.0 sub 0.0"`. -/
theorem get_version_str_spec (b0 b1 b2 b3 : Nat) (h : ICCHeader)
    (hv : h.version = [b0, b1, b2, b3]) :
    get_version_str h =
      toString b0 ++ "." ++ toString (b1 / 16) ++ "." ++
        toString (b1 % 16) ++ " sub " ++ toString b2 ++ "." ++
        toString b3 ∧
    (b0 = 2 → b1 = 16 → b2 = 0 → b3 = 0 →
      get_version_str h = "2.1.0 sub 0.0") := by
  constructor
  · simp [get_version_str, hv]
  · rintro rfl rfl rfl rfl
    simp only [get_version_str, hv]
    rfl

/-- Witness for C6 at `sampleHeader`, whose version bytes are
`(2, 0x10, 0, 0)`. -/
theorem get_version_str_spec_witness :
    sampleHeader.version = [2, 16, 0, 0] ∧
    (get_version_str sampleHeader =
      toString 2 ++ "." ++ toString (16 / 16) ++ "." ++
        toString (16 % 16) ++ " sub " ++ toString 0 ++ "." ++
        toString 0 ∧
    (2 = 2 → 16 = 16 → 0 = 0 → 0 = 0 →
      get_version_str sampleHeader = "2.1.0 sub 0.0")) :=
  ⟨rfl, get_version_str_spec 2 16 0 0 sampleHeader rfl⟩

/-- Claim C7: `TAG_SIGS` holds exactly the twelve known signatures in
source order, `vcgt` maps to `videoCardGammaTableTag`, an unknown
signature such as `xyz1` has no entry, and the directory line printed
for a tag always carries the raw tag itself (raw 4-byte signature, no
lookup, no failure possible). -/
theorem tag_sigs_spec :
    TAG_SIGS.map Prod.fst = ["desc", "cprt", "dmnd", "dmdd", "vcgt",
      "rXYZ", "gXYZ", "bXYZ", "rTRC", "gTRC", "bTRC", "wtpt"] ∧
    TAG_SIGS.lookup "vcgt" = some "videoCardGammaTableTag" ∧
    TAG_SIGS.lookup "xyz1" = none ∧
    ∀ i t, (printTagLine i t).2.signature = t.signature :=
  ⟨rfl, by decide, by decide, fun i t => rfl⟩

/-- Counterexample to claim C2 as stated: on `c2input` the declared tag
size (5) exceeds the 2 remaining bytes, yet `unpack` does not fail — it
returns a `Profile` whose payload holds just the 2 remaining bytes,
because `file.read(size)` silently returns short at end of file. -/
theorem unpack_undersupplied_succeeds_cex :
    unpack c2input =
      some { header := zeroHeader, num_tags := 1,
             tags := [{ signature := [118, 99, 103, 116], offset := 144,
                        size := 5 }],
             tag_elements := [[9, 8]] } := by decide

/-- Claim C2 (amended): on an input whose header, tag count and full
directory decode but whose declared tag sizes sum to more bytes than
remain, `unpack` does not raise: it succeeds, and the payload sequence
is truncated — its total length is exactly the bytes remaining after
the directory, strictly less than the declared total. -/
theorem unpack_undersupplied_truncates (s : List Nat)
    (hdir : 132 + 12 * beNat ((s.drop 128).take 4) ≤ s.length) :
    ∃ p, unpack s = some p ∧
      (s.length - (132 + 12 * p.num_tags) <
          (p.tags.map ICCTag.size).sum →
        (p.tag_elements.map List.length).sum =
          s.length - (132 + 12 * p.num_tags) ∧
        (p.tag_elements.map List.length).sum <
          (p.tags.map ICCTag.size).sum) := by
  have hs := (unpack_isSome_iff s).mpr hdir
  obtain ⟨p, hp⟩ := Option.isSome_iff_exists.mp hs
  refine ⟨p, hp, fun hunder => ?_⟩
  obtain ⟨hH, hnum, hrt, hpe⟩ := unpack_inv s p hp
  have hdl : (s.drop (132 + 12 * p.num_tags)).length =
      s.length - (132 + 12 * p.num_tags) := List.length_drop _ _
  rw [hpe, readPayloads_total, hdl]
  omega

/-- Witness for the amended C2 at `c2input` (declared size 5, 2 bytes
remaining). -/
theorem unpack_undersupplied_truncates_witness :
    132 + 12 * beNat ((c2input.drop 128).take 4) ≤ c2input.length ∧
    ∃ p, unpack c2input = some p ∧
      (c2input.length - (132 + 12 * p.num_tags) <
          (p.tags.map ICCTag.size).sum →
        (p.tag_elements.map List.length).sum =
          c2input.length - (132 + 12 * p.num_tags) ∧
        (p.tag_elements.map List.length).sum <
          (p.tags.map ICCTag.size).sum) :=
  ⟨by decide, unpack_undersupplied_truncates c2input (by decide)⟩

/-- Claim C8: whenever `unpack` succeeds, the tag list length equals the
decoded 4-byte count, the payload list is index-aligned with the tag
list (same length), and the i-th tag is the one decoded from the i-th
12-byte directory record of the input, in file order. -/
theorem unpack_profile_invariants (s : List Nat) (p : ICCProfile)
    (hp : unpack s = some p) :
    p.tags.length = p.num_tags ∧
    p.tag_elements.length = p.tags.length ∧
    ∀ i, i < p.num_tags →
      p.tags[i]? = unpackTag ((s.drop (132 + 12 * i)).take 12) := by
  obtain ⟨hH, hnum, hrt, hpe⟩ := unpack_inv s p hp
  obtain ⟨hlen, hrest⟩ := readTags_eq_some _ _ _ _ hrt
  refine ⟨hlen, ?_, ?_⟩
  · rw [hpe, readPayloads_length]
  · intro i hi
    have hg := readTags_get _ _ _ _ hrt i hi
    rw [hg, List.drop_drop]

/-- Witness for C8 at `w8input`. -/
theorem unpack_profile_invariants_witness :
    unpack w8input = some w8profile ∧
    (w8profile.tags.length = w8profile.num_tags ∧
    w8profile.tag_elements.length = w8profile.tags.length ∧
    ∀ i, i < w8profile.num_tags →
      w8profile.tags[i]? =
        unpackTag ((w8input.drop (132 + 12 * i)).take 12)) := by
  have hp : unpack w8input = some w8profile := by decide
  exact ⟨hp, unpack_profile_invariants w8input w8profile hp⟩

/-- Witness for C1 at a concrete one-tag profile. -/
theorem unpack_packProfile_witness :
    sampleHeader.Valid ∧ (∀ t ∈ [sampleTag], t.Valid) ∧
    [sampleTag].length < 2 ^ 32 ∧
    List.Forall₂ (fun t p => p.length = t.size) [sampleTag] [[9, 8]] ∧
    unpack (packProfile sampleHeader [sampleTag] [[9, 8]]) =
      some { header := sampleHeader, num_tags := [sampleTag].length,
             tags := [sampleTag], tag_elements := [[9, 8]] } := by
  have h1 : sampleHeader.Valid := by decide
  have h2 : ∀ t ∈ [sampleTag], t.Valid := by decide
  have h3 : [sampleTag].length < 2 ^ 32 := by decide
  have h4 : List.Forall₂ (fun t p => p.length = t.size)
      [sampleTag] [[9, 8]] := List.Forall₂.cons rfl List.Forall₂.nil
  exact ⟨h1, h2, h3, h4,
    unpack_packProfile sampleHeader [sampleTag] [[9, 8]] h1 h2 h3 h4⟩

/-- Claim C10: `unpack` depends only on the prefix of the input it
consumes.  If `unpack s` yields `p`, then any input agreeing with `s` on
the first `132 + 12 * num_tags + (sum of declared sizes)` bytes decodes
to the same profile, field by field; in particular appending arbitrary
trailing bytes after the last payload leaves the result unchanged. -/
theorem unpack_prefix_congr (s : List Nat) (p : ICCProfile)
    (hp : unpack s = some p) :
    (∀ s', s'.take (132 + 12 * p.num_tags + (p.tags.map ICCTag.size).sum) =
        s.take (132 + 12 * p.num_tags + (p.tags.map ICCTag.size).sum) →
      unpack s' = some p) ∧
    (132 + 12 * p.num_tags + (p.tags.map ICCTag.size).sum ≤ s.length →
      ∀ junk, unpack
        (s.take (132 + 12 * p.num_tags + (p.tags.map ICCTag.size).sum) ++
          junk) = some p) := by
  obtain ⟨hH, hnum, hrt, hpe⟩ := unpack_inv s p hp
  have hlen := (unpack_isSome_iff s).mp (by rw [hp]; rfl)
  have main : ∀ s',
      s'.take (132 + 12 * p.num_tags + (p.tags.map ICCTag.size).sum) =
        s.take (132 + 12 * p.num_tags + (p.tags.map ICCTag.size).sum) →
      unpack s' = some p := by
    intro s' hpre
    have h128 : s'.take 128 = s.take 128 :=
      take_congr_of_take_le (by omega) hpre
    have hc4 : (s'.drop 128).take 4 = (s.drop 128).take 4 :=
      drop_take_congr_of_take (by omega) hpre
    have hdir : (s'.drop 132).take (12 * p.num_tags) =
        (s.drop 132).take (12 * p.num_tags) :=
      drop_take_congr_of_take (by omega) hpre
    have hpay : (s'.drop (132 + 12 * p.num_tags)).take
          ((p.tags.map ICCTag.size).sum) =
        (s.drop (132 + 12 * p.num_tags)).take
          ((p.tags.map ICCTag.size).sum) :=
      drop_take_congr_of_take (by omega) hpre
    have hmap := readTags_take_congr p.num_tags (s'.drop 132)
      (s.drop 132) hdir
    rw [hrt] at hmap
    cases hr' : readTags p.num_tags (s'.drop 132) with
    | none =>
      rw [hr'] at hmap
      simp at hmap
    | some pr =>
      obtain ⟨ts', r'⟩ := pr
      rw [hr'] at hmap
      simp at hmap
      subst hmap
      obtain ⟨hlen', hr'eq⟩ := readTags_eq_some _ _ _ _ hr'
      have hH' : unpackHeader (s'.take 128) = some p.header := by
        rw [h128]
        exact hH
      have h4' : ((s'.drop 128).take 4).length = 4 := by
        rw [hc4, List.length_take, List.length_drop]
        omega
      have hbe' : beNat ((s'.drop 128).take 4) = p.num_tags := by
        rw [hc4, ← hnum]
      have hrt' : readTags (beNat ((s'.drop 128).take 4)) (s'.drop 132) =
          some (p.tags, s'.drop (132 + 12 * p.num_tags)) := by
        rw [hbe', hr', hr'eq, List.drop_drop]
      have hb := unpack_build s' p.header p.tags
        (s'.drop (132 + 12 * p.num_tags)) hH' h4' hrt'
      rw [hb, hbe', readPayloads_take_congr p.tags _ _ hpay, ← hpe]
  refine ⟨main, fun hL junk => main _ ?_⟩
  refine List.take_left' ?_
  rw [List.length_take]
  omega

/-- Witness for C10: the zero profile decoded from 132 zero bytes is
unchanged when trailing bytes are appended. -/
theorem unpack_prefix_congr_witness :
    unpack w10input = some w10profile ∧
    unpack (w10input.take (132 + 12 * w10profile.num_tags +
      (w10profile.tags.map ICCTag.size).sum) ++ [5, 6]) =
      some w10profile := by
  have hp : unpack w10input = some w10profile := by decide
  exact ⟨hp, (unpack_prefix_congr w10input w10profile hp).2
    (by decide) [5, 6]⟩

theorem zipWith_setOffset_sizes (ts : List ICCTag) (offs : List Nat)
    (h : offs.length = ts.length) :
    (List.zipWith setOffset ts offs).map ICCTag.size =
      ts.map ICCTag.size := by
  induction ts generalizing offs with
  | nil => simp
  | cons t ts ih =>
    cases offs with
    | nil => simp at h
    | cons o os =>
      simp only [List.zipWith_cons_cons, List.map_cons, setOffset]
      rw [ih os (by simpa using h)]

theorem readTags_rewriteOffsets (n : Nat) (s : List Nat)
    (offs : List Nat) (ts : List ICCTag) (r : List Nat)
    (hoffs : offs.length = n) (h : readTags n s = some (ts, r)) :
    readTags n (rewriteOffsets s offs) =
      some (List.zipWith setOffset ts offs, r) := by
  induction n generalizing s offs ts r with
  | zero =>
    have hnil : offs = [] := List.length_eq_zero.mp hoffs
    subst hnil
    simp only [readTags, Option.some.injEq, Prod.mk.injEq] at h
    obtain ⟨hts, hr⟩ := h
    subst hts
    subst hr
    simp [rewriteOffsets, readTags]
  | succ n ih =>
    cases offs with
    | nil => simp at hoffs
    | cons o os =>
      have hos : os.length = n := by simpa using hoffs
      rw [readTags] at h
      cases hu : unpackTag (s.take 12) with
      | none => rw [hu] at h; exact absurd h (by simp)
      | some t =>
        rw [hu] at h
        cases hr : readTags n (s.drop 12) with
        | none => rw [hr] at h; exact absurd h (by simp)
        | some pr =>
          obtain ⟨ts₁, r₁⟩ := pr
          rw [hr] at h
          simp only [Option.some.injEq, Prod.mk.injEq] at h
          obtain ⟨hts, hrr⟩ := h
          subst hts
          subst hrr
          have h12 : (s.take 12).length = 12 := by
            refine (unpackTag_isSome_iff _).mp ?_
            rw [hu]
            rfl
          have hs12 : 12 ≤ s.length := by
            rw [List.length_take] at h12
            omega
          have hla : (s.take 4).length = 4 := by
            rw [List.length_take]
            omega
          have hlc : ((s.drop 8).take 4).length = 4 := by
            rw [List.length_take, List.length_drop]
            omega
          have habc : (s.take 4 ++ beBytes 4 o ++ (s.drop 8).take 4).length
              = 12 := by
            simp [hla, hlc, beBytes_length]
          have hchunk : (rewriteOffsets s (o :: os)).take 12 =
              s.take 4 ++ beBytes 4 o ++ (s.drop 8).take 4 := by
            rw [rewriteOffsets]
            exact List.take_left' habc
          have hrest : (rewriteOffsets s (o :: os)).drop 12 =
              rewriteOffsets (s.drop 12) os := by
            rw [rewriteOffsets]
            exact List.drop_left' habc
          have htag : unpackTag (s.take 4 ++ beBytes 4 o ++
              (s.drop 8).take 4) = some (setOffset t o) := by
            rw [unpackTag, if_pos habc]
            have e1 : (s.take 4 ++ beBytes 4 o ++ (s.drop 8).take 4).take 4
                = s.take 4 := by
              rw [List.append_assoc]
              exact List.take_left' hla
            have e2 : (s.take 4 ++ beBytes 4 o ++ (s.drop 8).take 4).drop 4
                = beBytes 4 o ++ (s.drop 8).take 4 := by
              rw [List.append_assoc]
              exact List.drop_left' hla
            have e3 : (s.take 4 ++ beBytes 4 o ++ (s.drop 8).take 4).drop 8
                = (s.drop 8).take 4 := by
              refine List.drop_left' ?_
              simp [hla, beBytes_length]
            rw [e1, e2, List.take_left' (beBytes_length 4 o), e3,
              take_exact hlc]
            rw [unpackTag, if_pos h12] at hu
            have ht := Option.some.inj hu
            rw [setOffset, ← ht]
            have f1 : (s.take 12).take 4 = s.take 4 := by
              rw [List.take_take]
              norm_num
            have f3 : ((s.take 12).drop 8).take 4 = (s.drop 8).take 4 := by
              rw [List.drop_take]
              norm_num
            rw [f1, f3]
          rw [readTags, hchunk, htag, hrest,
            ih (s.drop 12) os ts₁ r₁ hos hr]
          simp [List.zipWith_cons_cons]

/-- Claim C3: the i-th payload is the `size` bytes consumed sequentially
from the position after the directory and all earlier payloads — not the
bytes at the entry's declared offset — and consequently replacing every
offset field in the directory leaves the decoded payload sequence
unchanged. -/
theorem payloads_sequential_ignore_offsets (s : List Nat)
    (p : ICCProfile) (hp : unpack s = some p) :
    (∀ i t, p.tags[i]? = some t →
      p.tag_elements[i]? = some ((s.drop (132 + 12 * p.num_tags +
        ((p.tags.take i).map ICCTag.size).sum)).take t.size)) ∧
    (∀ offs, offs.length = p.num_tags →
      (unpack (withOffsets s offs)).map ICCProfile.tag_elements =
        some p.tag_elements) := by
  obtain ⟨hH, hnum, hrt, hpe⟩ := unpack_inv s p hp
  have hlen := (unpack_isSome_iff s).mp (by rw [hp]; rfl)
  obtain ⟨htslen, _⟩ := readTags_eq_some _ _ _ _ hrt
  constructor
  · intro i t hti
    have hg := readPayloads_get p.tags (s.drop (132 + 12 * p.num_tags))
      i t hti
    rw [hpe, hg, List.drop_drop]
  · intro offs hoffs
    have h132 : 132 ≤ s.length := by omega
    have hT132 : (s.take 132).length = 132 := by
      rw [List.length_take]
      omega
    have hc4len : ((s.drop 128).take 4).length = 4 := by
      rw [List.length_take, List.length_drop]
      omega
    have hs128 : (withOffsets s offs).take 128 = s.take 128 := by
      rw [withOffsets, List.take_append_eq_append_take, hT132,
        List.take_take]
      norm_num
    have hsd128 : (withOffsets s offs).drop 128 =
        (s.drop 128).take 4 ++ rewriteOffsets (s.drop 132) offs := by
      rw [withOffsets, List.drop_append_eq_append_drop, hT132,
        List.drop_take]
      norm_num
    have hsc4 : ((withOffsets s offs).drop 128).take 4 =
        (s.drop 128).take 4 := by
      rw [hsd128]
      exact List.take_left' hc4len
    have hsd132 : (withOffsets s offs).drop 132 =
        rewriteOffsets (s.drop 132) offs := by
      rw [withOffsets]
      exact List.drop_left' hT132
    have hrw := readTags_rewriteOffsets p.num_tags (s.drop 132) offs
      p.tags (s.drop (132 + 12 * p.num_tags)) hoffs hrt
    have hH' : unpackHeader ((withOffsets s offs).take 128) =
        some p.header := by
      rw [hs128]
      exact hH
    have h4' : (((withOffsets s offs).drop 128).take 4).length = 4 := by
      rw [hsc4]
      exact hc4len
    have hbe' : beNat (((withOffsets s offs).drop 128).take 4) =
        p.num_tags := by
      rw [hsc4, ← hnum]
    have hrt' : readTags (beNat (((withOffsets s offs).drop 128).take 4))
        ((withOffsets s offs).drop 132) =
        some (List.zipWith setOffset p.tags offs,
          s.drop (132 + 12 * p.num_tags)) := by
      rw [hbe', hsd132]
      exact hrw
    have hb := unpack_build (withOffsets s offs) p.header
      (List.zipWith setOffset p.tags offs)
      (s.drop (132 + 12 * p.num_tags)) hH' h4' hrt'
    rw [hb]
    simp only [Option.map_some']
    rw [readPayloads_sizes_congr (List.zipWith setOffset p.tags offs)
      p.tags _ (zipWith_setOffset_sizes p.tags offs
        (by rw [hoffs, htslen])), ← hpe]

/-- Witness for C3 at `w8input` (hypothesis `unpack w8input = some
w8profile` discharged by evaluation). -/
theorem payloads_sequential_ignore_offsets_witness :
    unpack w8input = some w8profile ∧
    ((∀ i t, w8profile.tags[i]? = some t →
      w8profile.tag_elements[i]? =
        some ((w8input.drop (132 + 12 * w8profile.num_tags +
          ((w8profile.tags.take i).map ICCTag.size).sum)).take t.size)) ∧
    (∀ offs, offs.length = w8profile.num_tags →
      (unpack (withOffsets w8input offs)).map ICCProfile.tag_elements =
        some w8profile.tag_elements)) := by
  have hp : unpack w8input = some w8profile := by decide
  exact ⟨hp, payloads_sequential_ignore_offsets w8input w8profile hp⟩
